import Mathlib

/-!
Verification of the `tiny-debounce-throttle` package of
BaryoDev.Libraries.JavaScript (packages/tiny-debounce-throttle/src/index.ts).

The package wraps an action in a rate controller.  `debounce(func, wait,
{leading, trailing, maxWait})` collapses bursts of calls; `throttle(func,
wait)` delivers at most once per window with a trailing re-invocation.

The embedding is a discrete-event model of the source together with the
platform timer semantics the test-suite drives through fake timers:

* mutable closure variables become fields of an explicit state record;
* `setTimeout(cb, w)` at current time `t` becomes an optional
  `(deadline, seq)` pair with `deadline = t + w`; `seq` is a global
  scheduling counter so that timers expiring at the same instant fire in
  scheduling order, as platform timer queues do;
* `clearTimeout` removes the pair; a fired timer is removed as well
  (a platform timer never fires twice);
* advancing the clock to `t` fires, in `(deadline, seq)` order, every
  scheduled timer whose deadline is `≤ t`, running each callback at its
  own deadline; operations (`call`/`cancel`/`flush`) run at the current
  clock without firing anything, matching how the tests interleave
  synchronous calls with `vi.advanceTimersByTime`;
* delivery of the wrapped action is logged as `(time, args, context)`;
  the source always assigns and clears `lastArgs` and `lastThis`
  together, so they are merged into one optional pair here.
-/

set_option maxRecDepth 10000

namespace TinyDebounceThrottle

/-- Options captured by `debounce(func, wait, options)`:
`{ leading = false, trailing = true, maxWait } = options`. -/
structure DebounceConfig where
  wait : Nat
  leading : Bool
  trailing : Bool
  maxWait : Option Nat
deriving DecidableEq, Repr

/-- The mutable closure state of a debounced function, plus the event-log
bookkeeping (`now`, `nextSeq`, `deliveries`) of the timer model.
`timeoutId`/`maxTimeoutId` hold the scheduled timer as `(deadline, seq)`;
`lastArgs` merges the source's `lastArgs`/`lastThis` pair (always written
and cleared together); `lastCallTime` is the burst marker. -/
structure DebState (α β : Type) where
  timeoutId : Option (Nat × Nat)
  maxTimeoutId : Option (Nat × Nat)
  lastArgs : Option (α × β)
  lastCallTime : Option Nat
  now : Nat
  nextSeq : Nat
  deliveries : List (Nat × α × β)
deriving DecidableEq, Repr

/-- The state of a freshly constructed debounced function: every closure
variable starts `undefined`. -/
def debInit {α β : Type} : DebState α β :=
  { timeoutId := none, maxTimeoutId := none, lastArgs := none,
    lastCallTime := none, now := 0, nextSeq := 0, deliveries := [] }

/-- `invokeFunc()`: read and clear `lastArgs`/`lastThis`, and deliver
`func.apply(thisArg, args)` when arguments were captured. -/
def invokeFunc {α β : Type} (s : DebState α β) : DebState α β :=
  match s.lastArgs with
  | some (a, c) =>
      { s with lastArgs := none, deliveries := s.deliveries ++ [(s.now, a, c)] }
  | none => { s with lastArgs := none }

/-- `cancel()`: clear both timers and all captured state. -/
def debCancel {α β : Type} (s : DebState α β) : DebState α β :=
  { s with timeoutId := none, maxTimeoutId := none, lastArgs := none,
           lastCallTime := none }

/-- `flush()`: clear both timers, then `invokeFunc()` when arguments are
pending.  Note that `lastCallTime` is left untouched. -/
def debFlush {α β : Type} (s : DebState α β) : DebState α β :=
  let s1 : DebState α β := { s with timeoutId := none, maxTimeoutId := none }
  if s1.lastArgs.isSome then invokeFunc s1 else s1

/-- `pending()`: whether the primary timer variable is set. -/
def debPending {α β : Type} (s : DebState α β) : Bool :=
  s.timeoutId.isSome

/-- The body of the debounced function itself, at the current clock:
capture `args`/`this`, stamp `lastCallTime`; leading delivery when this is
the first call since the marker was cleared; replace the primary timer
when trailing; schedule the max-wait timer only if none is scheduled.
(When `trailing` is false the source never assigns `timeoutId`, so the
`clearTimeout(timeoutId)` guard never holds and the field is untouched.) -/
def debCall {α β : Type} (cfg : DebounceConfig) (s : DebState α β)
    (args : α) (ctx : β) : DebState α β :=
  let time := s.now
  let isInvoking := s.lastCallTime.isNone
  let s1 : DebState α β :=
    { s with lastArgs := some (args, ctx), lastCallTime := some time }
  let s2 := if isInvoking && cfg.leading then invokeFunc s1 else s1
  let s3 : DebState α β :=
    if cfg.trailing then
      { s2 with timeoutId := some (time + cfg.wait, s2.nextSeq),
                nextSeq := s2.nextSeq + 1 }
    else s2
  match cfg.maxWait with
  | some m =>
      if s3.maxTimeoutId.isNone then
        { s3 with maxTimeoutId := some (time + m, s3.nextSeq),
                  nextSeq := s3.nextSeq + 1 }
      else s3
  | none => s3

/-- The primary (trailing) timer callback, running at `s.now` = its
deadline: drop the fired timer, cancel the max-wait timer, deliver unless
a leading-only burst already consumed the arguments, clear the marker. -/
def firePrimary {α β : Type} (cfg : DebounceConfig) (s : DebState α β) :
    DebState α β :=
  let s1 : DebState α β := { s with timeoutId := none, maxTimeoutId := none }
  let s2 := if !cfg.leading || s1.lastArgs.isSome then invokeFunc s1 else s1
  { s2 with lastCallTime := none }

/-- The max-wait timer callback, running at `s.now` = its deadline:
drop the fired timer, cancel the primary timer, deliver, clear the
marker. -/
def fireMax {α β : Type} (s : DebState α β) : DebState α β :=
  let s1 : DebState α β := { s with maxTimeoutId := none, timeoutId := none }
  let s2 := invokeFunc s1
  { s2 with lastCallTime := none }

/-- Fire the earliest scheduled debounce timer whose deadline is `≤ t`
(ties broken by scheduling order), running its callback at its deadline.
Each callback cancels the other timer and schedules nothing, so one round
reaches quiescence up to `t`. -/
def debFireDue {α β : Type} (cfg : DebounceConfig) (s : DebState α β)
    (t : Nat) : DebState α β :=
  match s.timeoutId, s.maxTimeoutId with
  | none, none => s
  | some (d, _), none =>
      if d ≤ t then firePrimary cfg { s with now := max s.now d } else s
  | none, some (d, _) =>
      if d ≤ t then fireMax { s with now := max s.now d } else s
  | some (d1, q1), some (d2, q2) =>
      if d1 ≤ t ∧ (¬ d2 ≤ t ∨ d1 < d2 ∨ (d1 = d2 ∧ q1 < q2)) then
        firePrimary cfg { s with now := max s.now d1 }
      else if d2 ≤ t then
        fireMax { s with now := max s.now d2 }
      else s

/-- Advance the clock to `t`: fire due timers, then set the clock. -/
def debAdvanceTo {α β : Type} (cfg : DebounceConfig) (s : DebState α β)
    (t : Nat) : DebState α β :=
  let s1 := debFireDue cfg s t
  { s1 with now := max s1.now t }

/-- External events driving a debounced function. -/
inductive DebEvent (α β : Type) where
  | advanceTo (t : Nat)
  | call (args : α) (ctx : β)
  | cancel
  | flush
deriving DecidableEq, Repr

/-- One event step of a debounced function. -/
def debStep {α β : Type} (cfg : DebounceConfig) (s : DebState α β) :
    DebEvent α β → DebState α β
  | .advanceTo t => debAdvanceTo cfg s t
  | .call a c => debCall cfg s a c
  | .cancel => debCancel s
  | .flush => debFlush s

/-- Run a debounced function over a list of events. -/
def debRun {α β : Type} (cfg : DebounceConfig) (s : DebState α β) :
    List (DebEvent α β) → DebState α β
  | [] => s
  | e :: es => debRun cfg (debStep cfg s e) es

/-- The mutable closure state of a throttled function
(`inThrottle`, merged `lastArgs`/`lastThis`, cooldown timer), plus the
clock, scheduling counter and delivery log of the timer model. -/
structure ThrState (α β : Type) where
  inThrottle : Bool
  lastArgs : Option (α × β)
  timeoutId : Option (Nat × Nat)
  now : Nat
  nextSeq : Nat
  deliveries : List (Nat × α × β)
deriving DecidableEq, Repr

/-- The state of a freshly constructed throttled function. -/
def thrInit {α β : Type} : ThrState α β :=
  { inThrottle := false, lastArgs := none, timeoutId := none,
    now := 0, nextSeq := 0, deliveries := [] }

/-- Throttle `cancel()`: clear the cooldown timer, exit cooldown, drop the
recorded trailing call. -/
def thrCancel {α β : Type} (s : ThrState α β) : ThrState α β :=
  { s with timeoutId := none, inThrottle := false, lastArgs := none }

/-- The body of the throttled function at the current clock: record the
call; outside cooldown, deliver immediately with this call's arguments,
clear the record, enter cooldown and schedule the cooldown-expiry timer
for `wait` ms. -/
def thrCall {α β : Type} (w : Nat) (s : ThrState α β)
    (args : α) (ctx : β) : ThrState α β :=
  let s1 : ThrState α β := { s with lastArgs := some (args, ctx) }
  if !s1.inThrottle then
    { s1 with deliveries := s1.deliveries ++ [(s1.now, args, ctx)],
              lastArgs := none, inThrottle := true,
              timeoutId := some (s1.now + w, s1.nextSeq),
              nextSeq := s1.nextSeq + 1 }
  else s1

/-- The cooldown timer callback, running at `s.now` = its deadline: the
fired timer is dropped (a fired platform timer cannot fire again; the
source leaves the stale id in the variable, which is observationally
equivalent), cooldown ends, and a recorded trailing call re-invokes the
throttled function with the recorded arguments and context. -/
def thrFire {α β : Type} (w : Nat) (s : ThrState α β) : ThrState α β :=
  let s1 : ThrState α β := { s with timeoutId := none, inThrottle := false }
  match s1.lastArgs with
  | some (a, c) => thrCall w s1 a c
  | none => s1

/-- Fire the cooldown timer if it is due at `t`, at its own deadline. -/
def thrFireDue {α β : Type} (w : Nat) (s : ThrState α β) (t : Nat) :
    ThrState α β :=
  match s.timeoutId with
  | some (d, _) => if d ≤ t then thrFire w { s with now := max s.now d } else s
  | none => s

/-- Advance the clock to `t`.  A fire that re-invokes leaves no recorded
call behind, so its rescheduled timer delivers nothing if it is also due:
two rounds reach quiescence up to `t`. -/
def thrAdvanceTo {α β : Type} (w : Nat) (s : ThrState α β) (t : Nat) :
    ThrState α β :=
  let s1 := thrFireDue w (thrFireDue w s t) t
  { s1 with now := max s1.now t }

/-- External events driving a throttled function. -/
inductive ThrEvent (α β : Type) where
  | advanceTo (t : Nat)
  | call (args : α) (ctx : β)
  | cancel
deriving DecidableEq, Repr

/-- One event step of a throttled function. -/
def thrStep {α β : Type} (w : Nat) (s : ThrState α β) :
    ThrEvent α β → ThrState α β
  | .advanceTo t => thrAdvanceTo w s t
  | .call a c => thrCall w s a c
  | .cancel => thrCancel s

/-- Run a throttled function over a list of events. -/
def thrRun {α β : Type} (w : Nat) (s : ThrState α β) :
    List (ThrEvent α β) → ThrState α β
  | [] => s
  | e :: es => thrRun w (thrStep w s e) es

/-- What `debounce(func, wait, options)` itself returns: the captured
configuration and the initial closure state.  The wait is an `Int` so a
negative wait is expressible; the source body only destructures the
options and initializes the closure variables — it contains no validation
and no throw, so construction always succeeds. -/
structure RawDebounced (α β : Type) where
  wait : Int
  leading : Bool
  trailing : Bool
  maxWait : Option Int
  st : DebState α β
deriving DecidableEq, Repr

/-- The construction path of `debounce`. -/
def debounceMake (α β : Type) (wait : Int) (leading trailing : Bool)
    (maxWait : Option Int) : Except String (RawDebounced α β) :=
  .ok { wait := wait, leading := leading, trailing := trailing,
        maxWait := maxWait, st := debInit }

/-- The construction path of `throttle`: captures the wait and the initial
closure state; no validation, no throw. -/
def throttleMake (α β : Type) (wait : Int) :
    Except String (Int × ThrState α β) :=
  .ok (wait, thrInit)

/-- Interleave each timed call `(t, args, ctx)` as a clock advance to `t`
followed by a synchronous call. -/
def callsTrace {α β : Type} : List (Nat × α × β) → List (DebEvent α β)
  | [] => []
  | p :: ps => .advanceTo p.1 :: .call p.2.1 p.2.2 :: callsTrace ps

/-- The last element of `x :: xs`. -/
def lastOf {γ : Type} (x : γ) : List γ → γ
  | [] => x
  | y :: ys => lastOf y ys

/-- The state of a default-configured debounced function mid-burst: the
most recent call happened at time `t` with arguments `a` and context `c`,
the primary timer is scheduled for `t + w` with scheduling number `q`, and
nothing has been delivered. -/
def burstState {α β : Type} (w t : Nat) (a : α) (c : β) (q : Nat) :
    DebState α β :=
  { timeoutId := some (t + w, q), maxTimeoutId := none, lastArgs := some (a, c),
    lastCallTime := some t, now := t, nextSeq := q + 1, deliveries := [] }

/-- The state of a debounced function with `maxWait` configured,
mid-burst: the burst began at `t0` (max-wait timer at `t0 + m`), the most
recent call was at `t` (primary timer at `t + w`) with arguments `a` and
context `c`, and nothing has been delivered. -/
def maxBurst {α β : Type} (w m t0 t : Nat) (a : α) (c : β) (qp qm n : Nat) :
    DebState α β :=
  { timeoutId := some (t + w, qp), maxTimeoutId := some (t0 + m, qm),
    lastArgs := some (a, c), lastCallTime := some t, now := t,
    nextSeq := n, deliveries := [] }

/-- Successive delivery times are at least `w` apart. -/
def spacedBy {α β : Type} (w : Nat) (l : List (Nat × α × β)) : Prop :=
  List.Chain' (fun p q => p.1 + w ≤ q.1) l

/-- The time of the most recent delivery in the log, if any. -/
def lastDel {α β : Type} (l : List (Nat × α × β)) : Option Nat :=
  l.getLast?.map (·.1)

/-- A throttle event trace that never cancels. -/
@[reducible] def noCancel {α β : Type} (evs : List (ThrEvent α β)) : Prop :=
  ∀ e ∈ evs, e ≠ ThrEvent.cancel

/-- The throttle invariant tying the cooldown flag, the cooldown timer and
the delivery log together: deliveries are at least `w` apart; in cooldown
the timer expires exactly `w` after the last delivery and the clock has
not passed it; out of cooldown there is no timer and at least `w` has
elapsed since the last delivery. -/
def thrInv {α β : Type} (w : Nat) (s : ThrState α β) : Prop :=
  spacedBy w s.deliveries ∧
  (s.inThrottle = true →
    ∃ q tl, lastDel s.deliveries = some tl ∧
      s.timeoutId = some (tl + w, q) ∧ s.now ≤ tl + w) ∧
  (s.inThrottle = false →
    s.timeoutId = none ∧
      ∀ tl, lastDel s.deliveries = some tl → tl + w ≤ s.now)

attribute [ext] DebState ThrState

section Lemmas

variable {α β : Type}

theorem invokeFunc_of_none {s : DebState α β} (h : s.lastArgs = none) :
    invokeFunc s = s := by
  simp only [invokeFunc, h]
  rw [← h]

theorem invokeFunc_of_some {s : DebState α β} {a : α} {c : β}
    (h : s.lastArgs = some (a, c)) :
    invokeFunc s =
      { s with lastArgs := none,
               deliveries := s.deliveries ++ [(s.now, a, c)] } := by
  simp only [invokeFunc, h]

theorem debFlush_of_none {s : DebState α β} (h : s.lastArgs = none) :
    debFlush s = { s with timeoutId := none, maxTimeoutId := none } := by
  simp [debFlush, h]

theorem debFlush_of_some {s : DebState α β} {a : α} {c : β}
    (h : s.lastArgs = some (a, c)) :
    debFlush s =
      { s with timeoutId := none, maxTimeoutId := none, lastArgs := none,
               deliveries := s.deliveries ++ [(s.now, a, c)] } := by
  simp [debFlush, h, invokeFunc]

theorem debAdvanceTo_of_no_timers {cfg : DebounceConfig} {s : DebState α β}
    (h1 : s.timeoutId = none) (h2 : s.maxTimeoutId = none) (t : Nat) :
    debAdvanceTo cfg s t = { s with now := max s.now t } := by
  simp only [debAdvanceTo, debFireDue, h1, h2]

theorem debRun_advances_deliveries {cfg : DebounceConfig} {s : DebState α β}
    (h1 : s.timeoutId = none) (h2 : s.maxTimeoutId = none) (ts : List Nat) :
    (debRun cfg s (ts.map DebEvent.advanceTo)).deliveries = s.deliveries := by
  induction ts generalizing s with
  | nil => rfl
  | cons t ts ih =>
      show (debRun cfg (debAdvanceTo cfg s t) (ts.map DebEvent.advanceTo)).deliveries = _
      rw [debAdvanceTo_of_no_timers h1 h2]
      exact ih h1 h2

theorem thrAdvanceTo_of_no_timer {w : Nat} {s : ThrState α β}
    (h : s.timeoutId = none) (t : Nat) :
    thrAdvanceTo w s t = { s with now := max s.now t } := by
  simp only [thrAdvanceTo, thrFireDue, h]

theorem thrRun_advances_deliveries {w : Nat} {s : ThrState α β}
    (h : s.timeoutId = none) (ts : List Nat) :
    (thrRun w s (ts.map ThrEvent.advanceTo)).deliveries = s.deliveries := by
  induction ts generalizing s with
  | nil => rfl
  | cons t ts ih =>
      show (thrRun w (thrAdvanceTo w s t) (ts.map ThrEvent.advanceTo)).deliveries = _
      rw [thrAdvanceTo_of_no_timer h]
      exact ih h

theorem debCall_deliveries (cfg : DebounceConfig) (s : DebState α β)
    (a : α) (c : β) :
    (debCall cfg s a c).deliveries =
      if s.lastCallTime.isNone && cfg.leading then
        s.deliveries ++ [(s.now, a, c)]
      else s.deliveries := by
  rw [debCall]
  cases h : s.lastCallTime.isNone && cfg.leading <;>
    cases hm : cfg.maxWait <;> cases ht : cfg.trailing <;>
      simp [h, hm, ht, invokeFunc, apply_ite]

theorem debCall_lastCallTime (cfg : DebounceConfig) (s : DebState α β)
    (a : α) (c : β) :
    (debCall cfg s a c).lastCallTime = some s.now := by
  rw [debCall]
  cases h : s.lastCallTime.isNone && cfg.leading <;>
    cases hm : cfg.maxWait <;> cases ht : cfg.trailing <;>
      simp [h, hm, ht, invokeFunc, apply_ite]

theorem debCall_timeoutId (cfg : DebounceConfig) (s : DebState α β)
    (a : α) (c : β) :
    (debCall cfg s a c).timeoutId =
      if cfg.trailing then some (s.now + cfg.wait, s.nextSeq)
      else s.timeoutId := by
  rw [debCall]
  cases h : s.lastCallTime.isNone && cfg.leading <;>
    cases hm : cfg.maxWait <;> cases ht : cfg.trailing <;>
      simp [h, hm, ht, invokeFunc, apply_ite]

theorem debCall_maxTimeoutId_of_some (cfg : DebounceConfig)
    {s : DebState α β} (a : α) (c : β) {x : Nat × Nat}
    (h : s.maxTimeoutId = some x) :
    (debCall cfg s a c).maxTimeoutId = some x := by
  rw [debCall]
  cases hl : s.lastCallTime.isNone && cfg.leading <;>
    cases hm : cfg.maxWait <;> cases ht : cfg.trailing <;>
      simp [hl, hm, ht, h, invokeFunc, apply_ite]

theorem invokeFunc_timeoutId (s : DebState α β) :
    (invokeFunc s).timeoutId = s.timeoutId := by
  rcases h : s.lastArgs with _ | ⟨a, c⟩ <;> simp [invokeFunc, h]

theorem invokeFunc_maxTimeoutId (s : DebState α β) :
    (invokeFunc s).maxTimeoutId = s.maxTimeoutId := by
  rcases h : s.lastArgs with _ | ⟨a, c⟩ <;> simp [invokeFunc, h]

theorem invokeFunc_lastArgs (s : DebState α β) :
    (invokeFunc s).lastArgs = none := by
  rcases h : s.lastArgs with _ | ⟨a, c⟩ <;> simp [invokeFunc, h]

theorem debFlush_timeoutId (s : DebState α β) :
    (debFlush s).timeoutId = none := by
  rcases h : s.lastArgs with _ | ⟨a, c⟩
  · rw [debFlush_of_none h]
  · rw [debFlush_of_some h]

theorem debFlush_maxTimeoutId (s : DebState α β) :
    (debFlush s).maxTimeoutId = none := by
  rcases h : s.lastArgs with _ | ⟨a, c⟩
  · rw [debFlush_of_none h]
  · rw [debFlush_of_some h]

theorem debFlush_lastArgs (s : DebState α β) :
    (debFlush s).lastArgs = none := by
  rcases h : s.lastArgs with _ | ⟨a, c⟩
  · rw [debFlush_of_none h]; exact h
  · rw [debFlush_of_some h]

theorem debFlush_lastCallTime (s : DebState α β) :
    (debFlush s).lastCallTime = s.lastCallTime := by
  rcases h : s.lastArgs with _ | ⟨a, c⟩
  · rw [debFlush_of_none h]
  · rw [debFlush_of_some h]

theorem firePrimary_timeoutId (cfg : DebounceConfig) (s : DebState α β) :
    (firePrimary cfg s).timeoutId = none := by
  simp [firePrimary, apply_ite (f := DebState.timeoutId), invokeFunc_timeoutId]

theorem firePrimary_maxTimeoutId (cfg : DebounceConfig) (s : DebState α β) :
    (firePrimary cfg s).maxTimeoutId = none := by
  simp [firePrimary, apply_ite (f := DebState.maxTimeoutId), invokeFunc_maxTimeoutId]

theorem fireMax_timeoutId (s : DebState α β) :
    (fireMax s).timeoutId = none := by
  simp [fireMax, invokeFunc_timeoutId]

theorem fireMax_maxTimeoutId (s : DebState α β) :
    (fireMax s).maxTimeoutId = none := by
  simp [fireMax, invokeFunc_maxTimeoutId]

theorem firePrimary_nolead_of_some {cfg : DebounceConfig} {s : DebState α β}
    {a : α} {c : β} (hl : cfg.leading = false) (h : s.lastArgs = some (a, c)) :
    firePrimary cfg s =
      { s with timeoutId := none, maxTimeoutId := none, lastArgs := none,
               lastCallTime := none,
               deliveries := s.deliveries ++ [(s.now, a, c)] } := by
  simp [firePrimary, hl, invokeFunc, h]

theorem fireMax_of_some {s : DebState α β} {a : α} {c : β}
    (h : s.lastArgs = some (a, c)) :
    fireMax s =
      { s with timeoutId := none, maxTimeoutId := none, lastArgs := none,
               lastCallTime := none,
               deliveries := s.deliveries ++ [(s.now, a, c)] } := by
  simp [fireMax, invokeFunc, h]

theorem fireMax_of_none {s : DebState α β} (h : s.lastArgs = none) :
    fireMax s =
      { s with timeoutId := none, maxTimeoutId := none, lastArgs := none,
               lastCallTime := none } := by
  simp [fireMax, invokeFunc, h]

theorem burst_start (w t0 : Nat) (a : α) (c : β) (evs : List (DebEvent α β)) :
    debRun ⟨w, false, true, none⟩ (debInit : DebState α β)
        (.advanceTo t0 :: .call a c :: evs)
      = debRun ⟨w, false, true, none⟩ (burstState w t0 a c 0) evs := by
  show debRun ⟨w, false, true, none⟩
      (debCall ⟨w, false, true, none⟩
        (debAdvanceTo ⟨w, false, true, none⟩ (debInit : DebState α β) t0) a c)
      evs = _
  have hs : debCall ⟨w, false, true, none⟩
      (debAdvanceTo ⟨w, false, true, none⟩ (debInit : DebState α β) t0) a c
      = burstState w t0 a c 0 := by
    simp [debAdvanceTo, debFireDue, debInit, debCall, invokeFunc, burstState,
      Nat.max_eq_right (Nat.zero_le t0)]
  rw [hs]

theorem burst_step (w t t2 q : Nat) (a a2 : α) (c c2 : β)
    (h1 : t ≤ t2) (h2 : t2 < t + w) (evs : List (DebEvent α β)) :
    debRun ⟨w, false, true, none⟩ (burstState w t a c q)
        (.advanceTo t2 :: .call a2 c2 :: evs)
      = debRun ⟨w, false, true, none⟩ (burstState w t2 a2 c2 (q + 1)) evs := by
  show debRun ⟨w, false, true, none⟩
      (debCall ⟨w, false, true, none⟩
        (debAdvanceTo ⟨w, false, true, none⟩ (burstState w t a c q) t2) a2 c2)
      evs = _
  have hne : ¬ (t + w ≤ t2) := by omega
  have hs : debCall ⟨w, false, true, none⟩
      (debAdvanceTo ⟨w, false, true, none⟩ (burstState w t a c q) t2) a2 c2
      = burstState w t2 a2 c2 (q + 1) := by
    simp [debAdvanceTo, debFireDue, burstState, hne, debCall, invokeFunc,
      Nat.max_eq_right h1]
  rw [hs]

theorem burst_finish (w t q T : Nat) (a : α) (c : β) (hT : t + w ≤ T) :
    (debRun ⟨w, false, true, none⟩ (burstState w t a c q)
        [.advanceTo T]).deliveries = [(t + w, a, c)] := by
  show (debAdvanceTo ⟨w, false, true, none⟩ (burstState w t a c q) T).deliveries = _
  simp [debAdvanceTo, debFireDue, burstState, hT, firePrimary, invokeFunc,
    Nat.max_eq_right (Nat.le_add_right t w)]

theorem burst_run (w T : Nat) (rest : List (Nat × α × β)) :
    ∀ (first : Nat × α × β) (q : Nat),
      List.Chain (fun p p2 => p.1 ≤ p2.1 ∧ p2.1 < p.1 + w) first rest →
      (lastOf first rest).1 + w ≤ T →
      (debRun ⟨w, false, true, none⟩
          (burstState w first.1 first.2.1 first.2.2 q)
          (callsTrace rest ++ [.advanceTo T])).deliveries
        = [((lastOf first rest).1 + w, (lastOf first rest).2.1,
            (lastOf first rest).2.2)] := by
  induction rest with
  | nil =>
      intro first q _ hT
      simpa using burst_finish w first.1 q T first.2.1 first.2.2 hT
  | cons p rest ih =>
      intro first q hchain hT
      cases hchain with
      | cons hrel hchain2 =>
          show (debRun ⟨w, false, true, none⟩
              (burstState w first.1 first.2.1 first.2.2 q)
              (.advanceTo p.1 :: .call p.2.1 p.2.2 ::
                (callsTrace rest ++ [.advanceTo T]))).deliveries = _
          rw [burst_step w first.1 p.1 q first.2.1 p.2.1 first.2.2 p.2.2
            hrel.1 hrel.2]
          exact ih p (q + 1) hchain2 hT

theorem invokeFunc_deliveries_mono (s : DebState α β) :
    ∃ l, (invokeFunc s).deliveries = s.deliveries ++ l := by
  rcases h : s.lastArgs with _ | ⟨a, c⟩
  · exact ⟨[], by rw [invokeFunc_of_none h]; simp⟩
  · exact ⟨[(s.now, a, c)], by rw [invokeFunc_of_some h]⟩

theorem firePrimary_deliveries_mono (cfg : DebounceConfig) (s : DebState α β) :
    ∃ l, (firePrimary cfg s).deliveries = s.deliveries ++ l := by
  rcases h : s.lastArgs with _ | ⟨a, c⟩
  · exact ⟨[], by
      simp [firePrimary, invokeFunc, h, apply_ite (f := DebState.deliveries)]⟩
  · exact ⟨[(s.now, a, c)], by simp [firePrimary, invokeFunc, h]⟩

theorem fireMax_deliveries_mono (s : DebState α β) :
    ∃ l, (fireMax s).deliveries = s.deliveries ++ l := by
  rcases h : s.lastArgs with _ | ⟨a, c⟩
  · exact ⟨[], by simp [fireMax, invokeFunc, h]⟩
  · exact ⟨[(s.now, a, c)], by simp [fireMax, invokeFunc, h]⟩

theorem debAdvanceTo_deliveries_mono (cfg : DebounceConfig)
    (s : DebState α β) (t : Nat) :
    ∃ l, (debAdvanceTo cfg s t).deliveries = s.deliveries ++ l := by
  show ∃ l, (debFireDue cfg s t).deliveries = s.deliveries ++ l
  rw [debFireDue]
  rcases h1 : s.timeoutId with _ | ⟨d1, q1⟩ <;>
    rcases h2 : s.maxTimeoutId with _ | ⟨d2, q2⟩
  · exact ⟨[], by simp⟩
  · simp only []
    split
    · exact fireMax_deliveries_mono _
    · exact ⟨[], by simp⟩
  · simp only []
    split
    · exact firePrimary_deliveries_mono cfg _
    · exact ⟨[], by simp⟩
  · simp only []
    split
    · exact firePrimary_deliveries_mono cfg _
    · split
      · exact fireMax_deliveries_mono _
      · exact ⟨[], by simp⟩

theorem debStep_deliveries_mono (cfg : DebounceConfig) (s : DebState α β)
    (e : DebEvent α β) :
    ∃ l, (debStep cfg s e).deliveries = s.deliveries ++ l := by
  cases e with
  | advanceTo t => exact debAdvanceTo_deliveries_mono cfg s t
  | call a c =>
      refine ⟨if s.lastCallTime.isNone && cfg.leading then [(s.now, a, c)]
        else [], ?_⟩
      rw [show debStep cfg s (.call a c) = debCall cfg s a c from rfl,
        debCall_deliveries]
      split <;> simp
  | cancel => exact ⟨[], by simp [debStep, debCancel]⟩
  | flush =>
      rcases h : s.lastArgs with _ | ⟨a, c⟩
      · exact ⟨[], by
          rw [show debStep cfg s .flush = debFlush s from rfl,
            debFlush_of_none h]; simp⟩
      · exact ⟨[(s.now, a, c)], by
          rw [show debStep cfg s .flush = debFlush s from rfl,
            debFlush_of_some h]⟩

theorem debRun_deliveries_mono (cfg : DebounceConfig)
    (evs : List (DebEvent α β)) :
    ∀ s : DebState α β, ∃ l, (debRun cfg s evs).deliveries = s.deliveries ++ l := by
  induction evs with
  | nil => exact fun s => ⟨[], by simp [debRun]⟩
  | cons e es ih =>
      intro s
      obtain ⟨l1, hl1⟩ := debStep_deliveries_mono cfg s e
      obtain ⟨l2, hl2⟩ := ih (debStep cfg s e)
      exact ⟨l1 ++ l2, by
        show (debRun cfg (debStep cfg s e) es).deliveries = _
        rw [hl2, hl1, List.append_assoc]⟩

theorem debRun_head (cfg : DebounceConfig) (s : DebState α β)
    (evs : List (DebEvent α β)) (hd : Nat × α × β) (tl : List (Nat × α × β))
    (h : s.deliveries = hd :: tl) :
    ∃ tl2, (debRun cfg s evs).deliveries = hd :: tl2 := by
  obtain ⟨l, hl⟩ := debRun_deliveries_mono cfg evs s
  exact ⟨tl ++ l, by rw [hl, h, List.cons_append]⟩

theorem maxBurst_start (w m t0 : Nat) (a : α) (c : β)
    (evs : List (DebEvent α β)) :
    debRun ⟨w, false, true, some m⟩ (debInit : DebState α β)
        (.advanceTo t0 :: .call a c :: evs)
      = debRun ⟨w, false, true, some m⟩ (maxBurst w m t0 t0 a c 0 1 2) evs := by
  show debRun ⟨w, false, true, some m⟩
      (debCall ⟨w, false, true, some m⟩
        (debAdvanceTo ⟨w, false, true, some m⟩ (debInit : DebState α β) t0) a c)
      evs = _
  have hs : debCall ⟨w, false, true, some m⟩
      (debAdvanceTo ⟨w, false, true, some m⟩ (debInit : DebState α β) t0) a c
      = maxBurst w m t0 t0 a c 0 1 2 := by
    simp [debAdvanceTo, debFireDue, debInit, debCall, invokeFunc, maxBurst,
      Nat.max_eq_right (Nat.zero_le t0)]
  rw [hs]

theorem maxBurst_call_step (w m t0 t t2 qp qm n : Nat) (a a2 : α) (c c2 : β)
    (h1 : t ≤ t2) (h2 : t2 < t + w) (h3 : t2 < t0 + m)
    (evs : List (DebEvent α β)) :
    debRun ⟨w, false, true, some m⟩ (maxBurst w m t0 t a c qp qm n)
        (.advanceTo t2 :: .call a2 c2 :: evs)
      = debRun ⟨w, false, true, some m⟩ (maxBurst w m t0 t2 a2 c2 n qm (n + 1))
          evs := by
  show debRun ⟨w, false, true, some m⟩
      (debCall ⟨w, false, true, some m⟩
        (debAdvanceTo ⟨w, false, true, some m⟩
          (maxBurst w m t0 t a c qp qm n) t2) a2 c2) evs = _
  have hne1 : ¬ (t + w ≤ t2) := by omega
  have hne2 : ¬ (t0 + m ≤ t2) := by omega
  have hs : debCall ⟨w, false, true, some m⟩
      (debAdvanceTo ⟨w, false, true, some m⟩
        (maxBurst w m t0 t a c qp qm n) t2) a2 c2
      = maxBurst w m t0 t2 a2 c2 n qm (n + 1) := by
    simp [debAdvanceTo, debFireDue, maxBurst, hne1, hne2, debCall, invokeFunc,
      Nat.max_eq_right h1]
  rw [hs]

theorem maxBurst_fire_step (w m t0 t t2 qp qm n : Nat) (a a2 : α) (c c2 : β)
    (_h1 : t ≤ t2) (h2 : t2 < t + w) (h3 : t0 + m ≤ t2) (hcur : t ≤ t0 + m)
    (evs : List (DebEvent α β)) :
    debRun ⟨w, false, true, some m⟩ (maxBurst w m t0 t a c qp qm n)
        (.advanceTo t2 :: .call a2 c2 :: evs)
      = debRun ⟨w, false, true, some m⟩
          { timeoutId := some (t2 + w, n), maxTimeoutId := some (t2 + m, n + 1),
            lastArgs := some (a2, c2), lastCallTime := some t2, now := t2,
            nextSeq := n + 2, deliveries := [(t0 + m, a, c)] } evs := by
  show debRun ⟨w, false, true, some m⟩
      (debCall ⟨w, false, true, some m⟩
        (debAdvanceTo ⟨w, false, true, some m⟩
          (maxBurst w m t0 t a c qp qm n) t2) a2 c2) evs = _
  have hne1 : ¬ (t + w ≤ t2) := by omega
  have hmax1 : max t (t0 + m) = t0 + m := Nat.max_eq_right hcur
  have hmax2 : max (t0 + m) t2 = t2 := Nat.max_eq_right h3
  have hs : debCall ⟨w, false, true, some m⟩
      (debAdvanceTo ⟨w, false, true, some m⟩
        (maxBurst w m t0 t a c qp qm n) t2) a2 c2
      = { timeoutId := some (t2 + w, n), maxTimeoutId := some (t2 + m, n + 1),
          lastArgs := some (a2, c2), lastCallTime := some t2, now := t2,
          nextSeq := n + 2, deliveries := [(t0 + m, a, c)] } := by
    simp [debAdvanceTo, debFireDue, maxBurst, hne1, h3, fireMax, invokeFunc,
      hmax1, hmax2, debCall]
  rw [hs]

theorem maxBurst_finish (w m t0 t qp qm n T : Nat) (a : α) (c : β)
    (hcur : t ≤ t0 + m) (hT : t0 + m ≤ T) :
    ∃ hd tl,
      (debRun ⟨w, false, true, some m⟩ (maxBurst w m t0 t a c qp qm n)
          [.advanceTo T]).deliveries = hd :: tl ∧ hd.1 ≤ t0 + m := by
  by_cases hc : t + w ≤ T ∧ (¬ t0 + m ≤ T ∨ t + w < t0 + m ∨
      (t + w = t0 + m ∧ qp < qm))
  · refine ⟨(t + w, a, c), [], ?_, ?_⟩
    · show (debFireDue ⟨w, false, true, some m⟩
          (maxBurst w m t0 t a c qp qm n) T).deliveries = _
      simp only [debFireDue, maxBurst]
      rw [if_pos hc]
      simp [firePrimary, invokeFunc, Nat.max_eq_right (Nat.le_add_right t w)]
    · rcases hc.2 with h | h | h
      · exact absurd hT h
      · exact Nat.le_of_lt h
      · exact Nat.le_of_eq h.1
  · refine ⟨(t0 + m, a, c), [], ?_, Nat.le_refl _⟩
    show (debFireDue ⟨w, false, true, some m⟩
        (maxBurst w m t0 t a c qp qm n) T).deliveries = _
    simp only [debFireDue, maxBurst]
    rw [if_neg hc, if_pos hT]
    simp [fireMax, invokeFunc, Nat.max_eq_right hcur]

theorem maxBurst_run (w m T t0 : Nat) (rest : List (Nat × α × β)) :
    ∀ (t : Nat) (a : α) (c : β) (qp qm n : Nat),
      List.Chain (fun p p2 => p.1 ≤ p2.1 ∧ p2.1 < p.1 + w) (t, a, c) rest →
      t ≤ t0 + m → t0 + m ≤ T →
      ∃ hd tl,
        (debRun ⟨w, false, true, some m⟩ (maxBurst w m t0 t a c qp qm n)
            (callsTrace rest ++ [.advanceTo T])).deliveries = hd :: tl ∧
          hd.1 ≤ t0 + m := by
  induction rest with
  | nil =>
      intro t a c qp qm n _ hcur hT
      exact maxBurst_finish w m t0 t qp qm n T a c hcur hT
  | cons p rest ih =>
      intro t a c qp qm n hchain hcur hT
      cases hchain with
      | cons hrel hchain2 =>
          by_cases hdue : t0 + m ≤ p.1
          · rw [show callsTrace (p :: rest) ++ [DebEvent.advanceTo T]
                = .advanceTo p.1 :: .call p.2.1 p.2.2 ::
                  (callsTrace rest ++ [.advanceTo T]) from rfl,
              maxBurst_fire_step w m t0 t p.1 qp qm n a p.2.1 c p.2.2
                hrel.1 hrel.2 hdue hcur]
            obtain ⟨tl2, htl⟩ := debRun_head ⟨w, false, true, some m⟩
              { timeoutId := some (p.1 + w, n),
                maxTimeoutId := some (p.1 + m, n + 1),
                lastArgs := some (p.2.1, p.2.2), lastCallTime := some p.1,
                now := p.1, nextSeq := n + 2,
                deliveries := [(t0 + m, a, c)] }
              (callsTrace rest ++ [.advanceTo T]) (t0 + m, a, c) [] rfl
            exact ⟨(t0 + m, a, c), tl2, htl, Nat.le_refl _⟩
          · rw [show callsTrace (p :: rest) ++ [DebEvent.advanceTo T]
                = .advanceTo p.1 :: .call p.2.1 p.2.2 ::
                  (callsTrace rest ++ [.advanceTo T]) from rfl,
              maxBurst_call_step w m t0 t p.1 qp qm n a p.2.1 c p.2.2
                hrel.1 hrel.2 (Nat.lt_of_not_le hdue)]
            exact ih p.1 p.2.1 p.2.2 n qm (n + 1) hchain2
              (Nat.le_of_lt (Nat.lt_of_not_le hdue)) hT

theorem lastDel_concat (l : List (Nat × α × β)) (p : Nat × α × β) :
    lastDel (l ++ [p]) = some p.1 := by
  simp [lastDel]

theorem spacedBy_append_one {w T : Nat} {a : α} {c : β}
    {l : List (Nat × α × β)} (h : spacedBy w l)
    (hl : ∀ tl, lastDel l = some tl → tl + w ≤ T) :
    spacedBy w (l ++ [(T, a, c)]) := by
  refine List.Chain'.append h (List.chain'_singleton _) ?_
  intro x hx y hy
  simp only [List.head?_cons, Option.mem_def, Option.some.injEq] at hy
  subst hy
  exact hl x.1 (by simp [lastDel, Option.mem_def.mp hx])

theorem thrCall_of_not_inThrottle {w : Nat} {s : ThrState α β} {a : α}
    {c : β} (h : s.inThrottle = false) :
    thrCall w s a c
      = { s with deliveries := s.deliveries ++ [(s.now, a, c)],
                 lastArgs := none, inThrottle := true,
                 timeoutId := some (s.now + w, s.nextSeq),
                 nextSeq := s.nextSeq + 1 } := by
  simp [thrCall, h]

theorem thrCall_of_inThrottle {w : Nat} {s : ThrState α β} {a : α} {c : β}
    (h : s.inThrottle = true) :
    thrCall w s a c = { s with lastArgs := some (a, c) } := by
  simp [thrCall, h]

theorem thrFire_of_none {w : Nat} {s : ThrState α β}
    (h : s.lastArgs = none) :
    thrFire w s = { s with timeoutId := none, inThrottle := false } := by
  simp [thrFire, h]

theorem thrFire_of_some {w : Nat} {s : ThrState α β} {a : α} {c : β}
    (h : s.lastArgs = some (a, c)) :
    thrFire w s
      = { s with timeoutId := some (s.now + w, s.nextSeq),
                 nextSeq := s.nextSeq + 1, inThrottle := true,
                 lastArgs := none,
                 deliveries := s.deliveries ++ [(s.now, a, c)] } := by
  simp [thrFire, h, thrCall]

theorem thrInit_inv (w : Nat) : thrInv w (thrInit : ThrState α β) := by
  refine ⟨List.chain'_nil, fun h => by simp [thrInit] at h,
    fun _ => ⟨rfl, fun tl htl => ?_⟩⟩
  simp [lastDel, thrInit] at htl

theorem thrCall_inv (w : Nat) (s : ThrState α β) (a : α) (c : β)
    (hinv : thrInv w s) : thrInv w (thrCall w s a c) := by
  obtain ⟨hsp, htrue, hfalse⟩ := hinv
  cases hb : s.inThrottle
  · rw [thrCall_of_not_inThrottle hb]
    obtain ⟨hto, hlast⟩ := hfalse hb
    refine ⟨spacedBy_append_one hsp hlast,
      fun _ => ⟨s.nextSeq, s.now, lastDel_concat s.deliveries (s.now, a, c),
        rfl, Nat.le_add_right _ _⟩,
      fun hb2 => by simp at hb2⟩
  · rw [thrCall_of_inThrottle hb]
    exact ⟨hsp, fun h => htrue h, fun h => hfalse h⟩

theorem thrAdvanceTo_inv (w t : Nat) (s : ThrState α β)
    (hinv : thrInv w s) : thrInv w (thrAdvanceTo w s t) := by
  obtain ⟨hsp, htrue, hfalse⟩ := hinv
  rcases hto : s.timeoutId with _ | ⟨d, q⟩
  · rw [thrAdvanceTo_of_no_timer hto]
    have hthr : s.inThrottle = false := by
      cases hb : s.inThrottle
      · rfl
      · obtain ⟨q2, tl, _, hto2, _⟩ := htrue hb
        rw [hto] at hto2
        exact Option.noConfusion hto2
    refine ⟨hsp, fun hb => by simp [hthr] at hb,
      fun _ => ⟨hto, fun tl htl => ?_⟩⟩
    exact Nat.le_trans ((hfalse hthr).2 tl htl) (Nat.le_max_left s.now t)
  · have hthr : s.inThrottle = true := by
      cases hb : s.inThrottle
      · have h2 := (hfalse hb).1
        rw [hto] at h2
        exact Option.noConfusion h2
      · rfl
    obtain ⟨q2, tl, hld, hto2, hnow⟩ := htrue hthr
    rw [hto] at hto2
    simp only [Option.some.injEq, Prod.mk.injEq] at hto2
    obtain ⟨hd, hq⟩ := hto2
    subst hd
    have htl_eq : ∀ tl2, lastDel s.deliveries = some tl2 → tl2 = tl := by
      intro tl2 htl2
      rw [hld] at htl2
      injection htl2 with h
      exact h.symm
    by_cases hdt : tl + w ≤ t
    · have hmax : max s.now (tl + w) = tl + w := Nat.max_eq_right hnow
      rcases hla : s.lastArgs with _ | ⟨a2, c2⟩
      · have hfd : thrFireDue w s t
            = { s with timeoutId := none, inThrottle := false,
                       now := tl + w } := by
          simp only [thrFireDue, hto, if_pos hdt]
          rw [thrFire_of_none
            (s := { s with timeoutId := some (tl + w, q),
                           now := max s.now (tl + w) }) hla]
          simp only [hmax]
        have hadv : thrAdvanceTo w s t
            = { s with timeoutId := none, inThrottle := false,
                       now := max (tl + w) t } := by
          simp only [thrAdvanceTo]
          rw [hfd]
          simp only [thrFireDue]
        rw [hadv]
        refine ⟨hsp, fun hb => by simp at hb,
          fun _ => ⟨rfl, fun tl2 htl2 => ?_⟩⟩
        rw [htl_eq tl2 htl2]
        exact Nat.le_max_left _ _
      · have hfd : thrFireDue w s t
            = { s with timeoutId := some (tl + w + w, s.nextSeq),
                       nextSeq := s.nextSeq + 1, inThrottle := true,
                       lastArgs := none,
                       deliveries := s.deliveries ++ [(tl + w, a2, c2)],
                       now := tl + w } := by
          simp only [thrFireDue, hto, if_pos hdt]
          rw [thrFire_of_some
            (s := { s with timeoutId := some (tl + w, q),
                           now := max s.now (tl + w) }) hla]
          simp only [hmax]
        have hsp2 : spacedBy w (s.deliveries ++ [(tl + w, a2, c2)]) :=
          spacedBy_append_one hsp (fun tl2 htl2 => by rw [htl_eq tl2 htl2])
        by_cases hdt2 : tl + w + w ≤ t
        · have hadv : thrAdvanceTo w s t
              = { s with timeoutId := none, inThrottle := false,
                         lastArgs := none, nextSeq := s.nextSeq + 1,
                         deliveries := s.deliveries ++ [(tl + w, a2, c2)],
                         now := max (tl + w + w) t } := by
            simp only [thrAdvanceTo]
            rw [hfd]
            simp only [thrFireDue, if_pos hdt2]
            rw [thrFire_of_none
              (s := { s with timeoutId := some (tl + w + w, s.nextSeq),
                             nextSeq := s.nextSeq + 1, inThrottle := true,
                             lastArgs := none,
                             deliveries := s.deliveries ++ [(tl + w, a2, c2)],
                             now := max (tl + w) (tl + w + w) }) rfl]
            simp only [Nat.max_eq_right (Nat.le_add_right (tl + w) w)]
          rw [hadv]
          refine ⟨hsp2, fun hb => by simp at hb,
            fun _ => ⟨rfl, fun tl2 htl2 => ?_⟩⟩
          rw [lastDel_concat] at htl2
          injection htl2 with h
          rw [← h]
          exact Nat.le_max_left _ _
        · have hadv : thrAdvanceTo w s t
              = { s with timeoutId := some (tl + w + w, s.nextSeq),
                         nextSeq := s.nextSeq + 1, inThrottle := true,
                         lastArgs := none,
                         deliveries := s.deliveries ++ [(tl + w, a2, c2)],
                         now := max (tl + w) t } := by
            simp only [thrAdvanceTo]
            rw [hfd]
            simp only [thrFireDue, if_neg hdt2]
          rw [hadv]
          refine ⟨hsp2,
            fun _ => ⟨s.nextSeq, tl + w, lastDel_concat _ _, rfl, ?_⟩,
            fun hb => by simp at hb⟩
          exact Nat.max_le.mpr ⟨Nat.le_add_right _ _,
            Nat.le_of_lt (Nat.lt_of_not_le hdt2)⟩
    · have hadv : thrAdvanceTo w s t
          = { s with timeoutId := some (tl + w, q), now := max s.now t } := by
        simp only [thrAdvanceTo, thrFireDue, hto, if_neg hdt]
      rw [hadv]
      refine ⟨hsp, fun _ => ⟨q, tl, hld, rfl, ?_⟩,
        fun hb => by simp [hthr] at hb⟩
      exact Nat.max_le.mpr ⟨hnow, Nat.le_of_lt (Nat.lt_of_not_le hdt)⟩

theorem thrRun_inv (w : Nat) (evs : List (ThrEvent α β)) :
    ∀ s : ThrState α β, thrInv w s → noCancel evs →
      thrInv w (thrRun w s evs) := by
  induction evs with
  | nil => exact fun s h _ => h
  | cons e es ih =>
      intro s hinv hnc
      have hes : noCancel es := fun e2 he2 => hnc e2 (List.mem_cons_of_mem _ he2)
      cases e with
      | advanceTo t => exact ih _ (thrAdvanceTo_inv w t s hinv) hes
      | call a c => exact ih _ (thrCall_inv w s a c hinv) hes
      | cancel => exact absurd rfl (hnc _ (List.mem_cons_self _ _))

end Lemmas

section Claims

variable {α β : Type}

/-- Claim C1: with default options (`leading = false`, `trailing = true`, no
`maxWait`) and wait `w`, any burst of `N ≥ 1` calls in which each call
comes within `w` ms of the previous one produces exactly one delivery: it
happens `w` ms after the last call of the burst and carries the last
call's arguments and context. -/
theorem debounce_collapses_bursts (w : Nat) (first : Nat × α × β)
    (rest : List (Nat × α × β))
    (hchain : List.Chain (fun p p2 => p.1 ≤ p2.1 ∧ p2.1 < p.1 + w) first rest)
    (T : Nat) (hT : (lastOf first rest).1 + w ≤ T) :
    (debRun ⟨w, false, true, none⟩ (debInit : DebState α β)
        (callsTrace (first :: rest) ++ [.advanceTo T])).deliveries
      = [((lastOf first rest).1 + w, (lastOf first rest).2.1,
          (lastOf first rest).2.2)] := by
  show (debRun ⟨w, false, true, none⟩ (debInit : DebState α β)
      (.advanceTo first.1 :: .call first.2.1 first.2.2 ::
        (callsTrace rest ++ [.advanceTo T]))).deliveries = _
  rw [burst_start w first.1 first.2.1 first.2.2]
  exact burst_run w T rest first 0 hchain hT

/-- Witness for C1: the spec example — wait 100, calls at 0, 30, 60 —
yields exactly one delivery, at 160, with the third call's arguments. -/
theorem debounce_collapses_bursts_witness :
    (debRun ⟨100, false, true, none⟩ (debInit : DebState Nat Nat)
        (callsTrace [(0, 1, 0), (30, 2, 0), (60, 3, 0)] ++ [.advanceTo 160])).deliveries
      = [(160, 3, 0)] := by
  have h := debounce_collapses_bursts 100 (0, 1, 0) [(30, 2, 0), (60, 3, 0)]
    (List.Chain.cons (by decide) (List.Chain.cons (by decide) List.Chain.nil))
    160 (by decide)
  simpa using h

/-- Claim C2 counterexample: with `leading` enabled and `trailing` disabled, a
call made 1000 ms (far more than `wait = 100`) after the previous one —
the previous burst long over, its delivery done, nothing pending — does
NOT receive a leading-edge delivery: the delivery log still holds only the
first call's delivery, because nothing ever cleared `lastCallTime`. -/
theorem leading_new_burst_cex :
    (debRun ⟨100, true, false, none⟩ (debInit : DebState Nat Nat)
        [.advanceTo 0, .call 1 0, .advanceTo 1000]).lastArgs = none
  ∧ (debRun ⟨100, true, false, none⟩ (debInit : DebState Nat Nat)
        [.advanceTo 0, .call 1 0, .advanceTo 1000, .call 2 0]).deliveries
      = [(0, 1, 0)] := ⟨rfl, rfl⟩

/-- Claim C2 amended: with `leading` enabled, a call delivers immediately and
synchronously with its own arguments and context exactly when the burst
marker `lastCallTime` is unset — i.e. on the very first call, or after the
marker was cleared by `cancel()` or by the primary or max-wait timer
firing; mere passage of time never clears the marker. -/
theorem leading_fires_iff_marker_clear (cfg : DebounceConfig)
    (hl : cfg.leading = true) (s : DebState α β) (a : α) (c : β) :
    ((debCall cfg s a c).deliveries = s.deliveries ++ [(s.now, a, c)]
        ↔ s.lastCallTime = none)
  ∧ (debCancel s).lastCallTime = none
  ∧ (firePrimary cfg s).lastCallTime = none
  ∧ (fireMax s).lastCallTime = none := by
  refine ⟨?_, rfl, rfl, rfl⟩
  rw [debCall_deliveries]
  rcases hc : s.lastCallTime with _ | t <;> simp [hc, hl]

/-- Witness for C2 (amended): the very first call on a leading debounced
function delivers synchronously with its own arguments. -/
theorem leading_fires_iff_marker_clear_witness :
    (debCall ⟨100, true, true, none⟩ (debInit : DebState Nat Nat) 5 7).deliveries
      = [(0, 5, 7)] := by
  have h := ((leading_fires_iff_marker_clear ⟨100, true, true, none⟩ rfl
    (debInit : DebState Nat Nat) 5 7).1).mpr rfl
  simpa using h

/-- Claim C5: once `cancel()` returns, both timers are invalidated and all
pending state is cleared, so no delivery on behalf of any call made
before the cancel ever occurs, no matter how far the clock advances —
for debounced and throttled functions alike. -/
theorem cancel_suppresses_all_deliveries :
    (∀ (cfg : DebounceConfig) (s : DebState α β) (ts : List Nat),
        (debRun cfg (debCancel s) (ts.map DebEvent.advanceTo)).deliveries
          = s.deliveries)
  ∧ (∀ (w : Nat) (s : ThrState α β) (ts : List Nat),
        (thrRun w (thrCancel s) (ts.map ThrEvent.advanceTo)).deliveries
          = s.deliveries) := by
  constructor
  · intro cfg s ts
    rw [debRun_advances_deliveries rfl rfl]
    rfl
  · intro w s ts
    rw [thrRun_advances_deliveries rfl]
    rfl

/-- Claim C6 counterexample: with `leading` enabled, after a single call the
leading delivery has consumed the pending arguments (`lastArgs = none`,
nothing is pending), yet `flush()` is not a no-op: it clears the
scheduled trailing timer, observably flipping `pending()`. -/
theorem flush_no_pending_cex :
    (debRun ⟨100, true, true, none⟩ (debInit : DebState Nat Nat)
        [.advanceTo 0, .call 1 0]).lastArgs = none
  ∧ debPending (debRun ⟨100, true, true, none⟩ (debInit : DebState Nat Nat)
        [.advanceTo 0, .call 1 0]) = true
  ∧ debPending (debFlush (debRun ⟨100, true, true, none⟩
        (debInit : DebState Nat Nat) [.advanceTo 0, .call 1 0])) = false
  ∧ debFlush (debRun ⟨100, true, true, none⟩ (debInit : DebState Nat Nat)
        [.advanceTo 0, .call 1 0])
      ≠ debRun ⟨100, true, true, none⟩ (debInit : DebState Nat Nat)
          [.advanceTo 0, .call 1 0] := by
  refine ⟨rfl, rfl, rfl, ?_⟩
  decide

/-- Claim C6 amended: if a call is pending, `flush()` delivers exactly once,
synchronously, with the latest pending arguments and context, and clears
both timers and the pending arguments; if nothing is pending it performs
no delivery and its only effect is clearing any scheduled timers (with
`leading` enabled a timer can be scheduled while nothing is pending);
after a flush no delivery happens at the original timer deadline. -/
theorem flush_behavior (cfg : DebounceConfig) (s : DebState α β)
    (a : α) (c : β) :
    (s.lastArgs = some (a, c) →
        debFlush s = { s with timeoutId := none, maxTimeoutId := none,
                              lastArgs := none,
                              deliveries := s.deliveries ++ [(s.now, a, c)] })
  ∧ (s.lastArgs = none →
        (debFlush s).deliveries = s.deliveries ∧
        debFlush s = { s with timeoutId := none, maxTimeoutId := none })
  ∧ (∀ ts : List Nat,
        (debRun cfg (debFlush s) (ts.map DebEvent.advanceTo)).deliveries
          = (debFlush s).deliveries) := by
  refine ⟨fun h => debFlush_of_some h,
          fun h => ⟨by rw [debFlush_of_none h], debFlush_of_none h⟩,
          fun ts => ?_⟩
  exact debRun_advances_deliveries (debFlush_timeoutId s) (debFlush_maxTimeoutId s) ts

/-- Witness for C6 (amended): flushing a pending call delivers it
immediately with its arguments and clears all transient state. -/
theorem flush_behavior_witness :
    debFlush (debRun ⟨100, false, true, none⟩ (debInit : DebState Nat Nat)
        [.call 5 7])
      = { timeoutId := none, maxTimeoutId := none, lastArgs := none,
          lastCallTime := some 0, now := 0, nextSeq := 1,
          deliveries := [(0, 5, 7)] } := by
  have h := (flush_behavior ⟨100, false, true, none⟩
    (debRun ⟨100, false, true, none⟩ (debInit : DebState Nat Nat) [.call 5 7])
    5 7).1 rfl
  exact h.trans (by decide)

/-- Claim C7 counterexample: constructing a debounced or throttled function
with the negative wait `-1` does not fail: construction returns the
handle, performing no validation at all. -/
theorem negative_wait_accepted_cex :
    debounceMake Nat Nat (-1) false true none
        = .ok { wait := -1, leading := false, trailing := true,
                maxWait := none, st := debInit }
  ∧ throttleMake Nat Nat (-1) = .ok (-1, thrInit) := ⟨rfl, rfl⟩

/-- Claim C7 amended: construction never validates the wait: for every wait,
negative included, `debounce` and `throttle` succeed, merely capturing the
configuration and initializing the closure state (the platform's
`setTimeout` later clamps negative delays to zero). -/
theorem construction_never_fails (α β : Type) :
    (∀ (w : Int) (l t : Bool) (mw : Option Int),
        debounceMake α β w l t mw
          = .ok { wait := w, leading := l, trailing := t, maxWait := mw,
                  st := debInit })
  ∧ (∀ w : Int, throttleMake α β w = .ok (w, thrInit)) :=
  ⟨fun _ _ _ _ => rfl, fun _ => rfl⟩

/-- Claim C8: `pending()` is true exactly when the primary timer is scheduled:
false on a fresh instance, true immediately after a call (whenever
`trailing` is enabled, which is what schedules the primary timer), and
false immediately after either timer fires, after `cancel()`, and after
`flush()`. -/
theorem pending_reflects_primary_timer (cfg : DebounceConfig)
    (s : DebState α β) (a : α) (c : β) :
    debPending s = s.timeoutId.isSome
  ∧ debPending (debInit : DebState α β) = false
  ∧ (cfg.trailing = true → debPending (debCall cfg s a c) = true)
  ∧ debPending (firePrimary cfg s) = false
  ∧ debPending (fireMax s) = false
  ∧ debPending (debCancel s) = false
  ∧ debPending (debFlush s) = false := by
  refine ⟨rfl, rfl, fun ht => ?_, ?_, ?_, rfl, ?_⟩
  · rw [debPending, debCall_timeoutId, ht]
    rfl
  · rw [debPending, firePrimary_timeoutId]
    rfl
  · rw [debPending, fireMax_timeoutId]
    rfl
  · rw [debPending, debFlush_timeoutId]
    rfl

/-- Witness for C8: a call on a fresh default-configured debounced
function makes `pending()` true. -/
theorem pending_reflects_primary_timer_witness :
    debPending (debCall ⟨100, false, true, none⟩ (debInit : DebState Nat Nat)
      1 0) = true :=
  (pending_reflects_primary_timer ⟨100, false, true, none⟩
    (debInit : DebState Nat Nat) 1 0).2.2.1 rfl

/-- Claim C9 counterexample: with `leading` enabled and `trailing` disabled,
after the sole call's leading delivery nothing is pending (`lastArgs =
none`, `pending() = false`) — yet calling `cancel()` in that state has an
observable effect: it resets the burst marker, so a later call gets a
leading delivery that it would not get otherwise. -/
theorem cancel_no_pending_observable_cex :
    (debRun ⟨100, true, false, none⟩ (debInit : DebState Nat Nat)
        [.advanceTo 0, .call 1 0]).lastArgs = none
  ∧ debPending (debRun ⟨100, true, false, none⟩ (debInit : DebState Nat Nat)
        [.advanceTo 0, .call 1 0]) = false
  ∧ (debRun ⟨100, true, false, none⟩ (debInit : DebState Nat Nat)
        [.advanceTo 0, .call 1 0, .cancel, .advanceTo 200, .call 2 0,
         .advanceTo 1000]).deliveries = [(0, 1, 0), (200, 2, 0)]
  ∧ (debRun ⟨100, true, false, none⟩ (debInit : DebState Nat Nat)
        [.advanceTo 0, .call 1 0, .advanceTo 200, .call 2 0,
         .advanceTo 1000]).deliveries = [(0, 1, 0)] := ⟨rfl, rfl, rfl, rfl⟩

/-- Claim C9 amended: `cancel()` and `flush()` are total and idempotent, and
with no pending call neither performs a delivery; they are not full
no-ops, however — flush clears scheduled timers and cancel also resets the
burst marker, which with `leading` enabled can change whether a later call
receives a leading delivery. -/
theorem cancel_flush_idempotent (s : DebState α β) (st : ThrState α β) :
    debCancel (debCancel s) = debCancel s
  ∧ debFlush (debFlush s) = debFlush s
  ∧ thrCancel (thrCancel st) = thrCancel st
  ∧ (debCancel s).deliveries = s.deliveries
  ∧ (s.lastArgs = none → (debFlush s).deliveries = s.deliveries)
  ∧ (thrCancel st).deliveries = st.deliveries := by
  refine ⟨rfl, ?_, rfl, rfl, fun h => by rw [debFlush_of_none h], rfl⟩
  rw [debFlush_of_none (debFlush_lastArgs s)]
  apply DebState.ext <;>
    simp [debFlush_timeoutId, debFlush_maxTimeoutId]

/-- Witness for C9 (amended): flushing with nothing pending delivers
nothing. -/
theorem cancel_flush_idempotent_witness :
    (debFlush (debInit : DebState Nat Nat)).deliveries = [] := by
  have h := (cancel_flush_idempotent (debInit : DebState Nat Nat)
    (thrInit : ThrState Nat Nat)).2.2.2.2.1 rfl
  simpa using h

/-- Claim C10: `flush()` clears both timers and the pending arguments/context
but leaves the burst marker `lastCallTime` untouched; consequently, with
`leading` enabled, a call made while the marker is set gets no
leading-edge delivery — the marker is cleared only by `cancel()` or by the
primary or max-wait timer firing. -/
theorem flush_keeps_burst_marker (cfg : DebounceConfig) (s : DebState α β)
    (a : α) (c : β) (t : Nat) :
    (debFlush s).lastCallTime = s.lastCallTime
  ∧ (debFlush s).timeoutId = none
  ∧ (debFlush s).maxTimeoutId = none
  ∧ (debFlush s).lastArgs = none
  ∧ (cfg.leading = true → s.lastCallTime = some t →
        (debCall cfg s a c).deliveries = s.deliveries)
  ∧ (debCancel s).lastCallTime = none
  ∧ (firePrimary cfg s).lastCallTime = none
  ∧ (fireMax s).lastCallTime = none := by
  refine ⟨debFlush_lastCallTime s, debFlush_timeoutId s, debFlush_maxTimeoutId s,
    debFlush_lastArgs s, fun hl hm => ?_, rfl, rfl, rfl⟩
  rw [debCall_deliveries]
  simp [hm]

/-- Witness for C10: after a leading call (marker set at 0), a second call
adds no delivery — the log still holds only the first, leading delivery. -/
theorem flush_keeps_burst_marker_witness :
    (debCall ⟨100, true, true, none⟩
        (debRun ⟨100, true, true, none⟩ (debInit : DebState Nat Nat)
          [.call 5 7]) 9 9).deliveries = [(0, 5, 7)] := by
  have h := (flush_keeps_burst_marker ⟨100, true, true, none⟩
    (debRun ⟨100, true, true, none⟩ (debInit : DebState Nat Nat) [.call 5 7])
    9 9 0).2.2.2.2.1 rfl rfl
  simpa using h

/-- Claim C4: with `maxWait = m` configured (other options default), any burst
of calls each within `wait` ms of the previous produces a first delivery
no later than `m` ms after the first call of the burst, however long the
burst goes on; a call made while the max-wait timer is scheduled never
reschedules it; and when the max-wait timer fires it cancels the primary
timer and delivers the latest pending arguments and context. -/
theorem debounce_maxWait_bounds_latency (w m : Nat) :
    (∀ (first : Nat × α × β) (rest : List (Nat × α × β)) (T : Nat),
        List.Chain (fun p p2 => p.1 ≤ p2.1 ∧ p2.1 < p.1 + w) first rest →
        first.1 + m ≤ T →
        ∃ hd tl,
          (debRun ⟨w, false, true, some m⟩ (debInit : DebState α β)
              (callsTrace (first :: rest) ++ [.advanceTo T])).deliveries
            = hd :: tl ∧ hd.1 ≤ first.1 + m)
  ∧ (∀ (cfg : DebounceConfig) (s : DebState α β) (a : α) (c : β)
        (x : Nat × Nat), s.maxTimeoutId = some x →
        (debCall cfg s a c).maxTimeoutId = some x)
  ∧ (∀ (s : DebState α β) (a : α) (c : β), s.lastArgs = some (a, c) →
        fireMax s = { s with timeoutId := none, maxTimeoutId := none,
                             lastArgs := none, lastCallTime := none,
                             deliveries := s.deliveries ++ [(s.now, a, c)] }) := by
  refine ⟨fun first rest T hchain hT => ?_,
    fun cfg s a c x h => debCall_maxTimeoutId_of_some cfg a c h,
    fun s a c h => fireMax_of_some h⟩
  rw [show callsTrace (first :: rest) ++ [DebEvent.advanceTo T]
      = .advanceTo first.1 :: .call first.2.1 first.2.2 ::
        (callsTrace rest ++ [.advanceTo T]) from rfl,
    maxBurst_start w m first.1 first.2.1 first.2.2]
  exact maxBurst_run w m T first.1 rest first.1 first.2.1 first.2.2 0 1 2
    hchain (Nat.le_add_right first.1 m) hT

/-- Witness for C4: the spec example — wait 100, maxWait 150, calls at
0, 50, 100, 150 — has its first delivery at a time no later than 150. -/
theorem debounce_maxWait_bounds_latency_witness :
    ∃ hd tl,
      (debRun ⟨100, false, true, some 150⟩ (debInit : DebState Nat Nat)
          (callsTrace [(0, 1, 0), (50, 2, 0), (100, 3, 0), (150, 4, 0)]
            ++ [.advanceTo 150])).deliveries = hd :: tl ∧ hd.1 ≤ 150 := by
  have h := (debounce_maxWait_bounds_latency (α := Nat) (β := Nat) 100 150).1
    (0, 1, 0) [(50, 2, 0), (100, 3, 0), (150, 4, 0)]
    150
    (List.Chain.cons (by decide) (List.Chain.cons (by decide)
      (List.Chain.cons (by decide) List.Chain.nil)))
    (by decide)
  simpa using h

/-- Claim C3: a throttled call outside cooldown delivers immediately with its
own arguments and context and starts a `w`-ms cooldown; a call during
cooldown is suppressed but recorded, overwriting any earlier pending call;
when the cooldown timer fires with a call pending, exactly one trailing
delivery occurs with the recorded arguments and a fresh cooldown window
starts; and over any cancel-free trace consecutive deliveries are at
least `w` ms apart. -/
theorem throttle_window_behavior (w : Nat) :
    (∀ (s : ThrState α β) (a : α) (c : β), s.inThrottle = false →
        thrCall w s a c
          = { s with deliveries := s.deliveries ++ [(s.now, a, c)],
                     lastArgs := none, inThrottle := true,
                     timeoutId := some (s.now + w, s.nextSeq),
                     nextSeq := s.nextSeq + 1 })
  ∧ (∀ (s : ThrState α β) (a : α) (c : β), s.inThrottle = true →
        thrCall w s a c = { s with lastArgs := some (a, c) })
  ∧ (∀ (s : ThrState α β) (a : α) (c : β), s.lastArgs = some (a, c) →
        thrFire w s
          = { s with timeoutId := some (s.now + w, s.nextSeq),
                     nextSeq := s.nextSeq + 1, inThrottle := true,
                     lastArgs := none,
                     deliveries := s.deliveries ++ [(s.now, a, c)] })
  ∧ (∀ evs : List (ThrEvent α β), noCancel evs →
        spacedBy w (thrRun w (thrInit : ThrState α β) evs).deliveries) :=
  ⟨fun _ _ _ h => thrCall_of_not_inThrottle h,
   fun _ _ _ h => thrCall_of_inThrottle h,
   fun _ _ _ h => thrFire_of_some h,
   fun evs hnc => (thrRun_inv w evs thrInit (thrInit_inv w) hnc).1⟩

/-- Witness for C3: a first throttled call delivers immediately and opens
a cooldown; the spec example trace (calls at 0, 10, 20, 90, wait 100) has
its deliveries — at 0 and at 100 — spaced at least 100 ms apart. -/
theorem throttle_window_behavior_witness :
    thrCall 100 (thrInit : ThrState Nat Nat) 5 7
        = { inThrottle := true, lastArgs := none, timeoutId := some (100, 0),
            now := 0, nextSeq := 1, deliveries := [(0, 5, 7)] }
  ∧ spacedBy 100 (thrRun 100 (thrInit : ThrState Nat Nat)
        [.call 1 0, .advanceTo 10, .call 2 0, .advanceTo 20, .call 3 0,
         .advanceTo 90, .call 4 0, .advanceTo 200]).deliveries := by
  constructor
  · exact ((throttle_window_behavior 100).1 thrInit 5 7 rfl).trans (by decide)
  · exact (throttle_window_behavior 100).2.2.2 _ (by decide)

end Claims

end TinyDebounceThrottle
